import Mathlib

/-!
# Verification of the shortener storage/service core

Shallow embedding of the URL-shortener repository core
(`internal/repository/memory/memory.go` final iteration,
`internal/repository/filestorage/filestorage.go`, and the service layer
`service.go` with the deletion aggregator).  Go maps are modelled as
association lists with overwrite-update; Go's in-place mutation becomes
explicit state passing (an operation returns the new state together with
an optional error, mirroring the fact that mutations made before an early
`return err` persist).  `fmt.Errorf("...: %w", err)` wrapping preserves
`errors.Is` identity, so wrapped errors are modelled by the base error
value.  Randomness (`rand.Intn` inside `generateShortURL`, `uuid.New()`)
is modelled by explicit oracle parameters.
-/

namespace Shortener

/-- The error values of the `myerrors` package (plus a generic i/o failure
used to model a failed file write in the file-storage variant). -/
inductive Err where
  | notFound
  | urlExist
  | emptyShortURLorURL
  | shortURLExist
  | invalidUserUUID
  | shortURLIsDeleted
  | emptyURL
  | wrongHTTPScheme
  | mustIncludeHost
  | invalidURLFormat
  | shortURLLength
  | ioFailure
  deriving DecidableEq, Repr

/-- Go map assignment `m[k] = v`: overwrite the binding of `k`. -/
def mupd {α : Type} (m : List (String × α)) (k : String) (v : α) :
    List (String × α) :=
  (k, v) :: m.filter (fun p => p.1 ≠ k)

/-- Go map read with zero-value default (`m[k]` when `k` may be absent). -/
def lookupD {α : Type} (m : List (String × α)) (k : String) (d : α) : α :=
  (m.lookup k).getD d

/-- The final `MemStorage` struct: six maps updated in lockstep
(`SlugMemStore`, `URLMemStore`, `UserUUIDURLMemStore`, `UUIDMemStore`,
`UserUUIDSlugMemStore`, `IsSlugDeletedMemStore`).  `uuid.UUID` keys are
modelled as `String`. -/
structure MemStorage where
  slugMem : List (String × String)
  urlMem : List (String × String)
  userURL : List (String × List (String × String))
  uuidMem : List (String × String)
  userSlug : List (String × List (String × String))
  isDeleted : List (String × Bool)
  deriving DecidableEq, Repr

/-- `NewMemStorage()`. -/
def MemStorage.empty : MemStorage :=
  ⟨[], [], [], [], [], []⟩

/-- `repo.IsSlugDeletedMemStore[slug]` (absent key reads as `false`). -/
def MemStorage.deletedD (repo : MemStorage) (slug : String) : Bool :=
  lookupD repo.isDeleted slug false

/-- `existsURL`: the URL is present in the global `URLMemStore` and the
slug it maps to is not soft-deleted. -/
def MemStorage.existsURL (repo : MemStorage) (url : String) : Bool :=
  match repo.urlMem.lookup url with
  | some v => !(repo.deletedD v)
  | none => false

/-- `existsShortURL`: the slug is present in `SlugMemStore` and is not
soft-deleted. -/
def MemStorage.existsShortURL (repo : MemStorage) (slug : String) : Bool :=
  match repo.slugMem.lookup slug with
  | some _ => !(repo.deletedD slug)
  | none => false

/-- `MemStorage.GetURL`: resolve a slug; `ErrShortURLIsDeleted` if the
record is soft-deleted, `ErrNotFound` if the slug is unknown. -/
def MemStorage.getURL (repo : MemStorage) (shortURL : String) :
    Except Err String :=
  match repo.slugMem.lookup shortURL with
  | some v =>
      if repo.deletedD shortURL then .error .shortURLIsDeleted else .ok v
  | none => .error .notFound

/-- `MemStorage.GetShortURL`: reverse-resolve an original URL; deleted
records are treated as absent. -/
def MemStorage.getShortURL (repo : MemStorage) (originalURL : String) :
    Except Err String :=
  match repo.urlMem.lookup originalURL with
  | some v => if !(repo.deletedD v) then .ok v else .error .notFound
  | none => .error .notFound

/-- Update of the nested owner-indexed maps: Go's nil-check + `make` +
assignment on `map[uuid.UUID]map[string]string`. -/
def nupd (m : List (String × List (String × String))) (owner k v : String) :
    List (String × List (String × String)) :=
  mupd m owner (mupd (lookupD m owner []) k v)

/-- `MemStorage.Save`: reject empty input, an already-present (non-deleted)
URL, or an already-taken (non-deleted) slug; otherwise insert into all six
maps.  `freshId` stands for the `uuid.New()` drawn for `UUIDMemStore`.
The state is returned together with the error (mutation in place in Go). -/
def MemStorage.save (repo : MemStorage) (userUUID shortURL url freshId : String) :
    MemStorage × Option Err :=
  if shortURL = "" ∨ url = "" then (repo, some .emptyShortURLorURL)
  else if repo.existsURL url then (repo, some .urlExist)
  else if repo.existsShortURL shortURL then (repo, some .shortURLExist)
  else
    ({ slugMem := mupd repo.slugMem shortURL url
       urlMem := mupd repo.urlMem url shortURL
       userURL := nupd repo.userURL userUUID url shortURL
       uuidMem := mupd repo.uuidMem freshId shortURL
       userSlug := nupd repo.userSlug userUUID shortURL url
       isDeleted := mupd repo.isDeleted shortURL false }, none)

/-- The final `model.URL` record (fields `uuid`, `user_uuid`, `short_url`,
`original_url`, `is_deleted`; the `is_deleted` field is the one read and
written by the file-storage variant). -/
structure URLRec where
  uuid : String
  userUUID : String
  shortURL : String
  originalURL : String
  isDeleted : Bool
  deriving DecidableEq, Repr

/-- First loop of `MemStorage.SaveBatch`: validate every record against
the *initial* store before anything is written. -/
def validateBatch (repo : MemStorage) : List URLRec → Option Err
  | [] => none
  | r :: rest =>
      if r.shortURL = "" ∨ r.originalURL = "" then some .emptyShortURLorURL
      else if repo.existsURL r.originalURL then some .urlExist
      else if repo.existsShortURL r.shortURL then some .shortURLExist
      else validateBatch repo rest

/-- One insertion of the second loop of `MemStorage.SaveBatch`. -/
def insertBatchRec (userUUID : String) (repo : MemStorage) (r : URLRec) :
    MemStorage :=
  { slugMem := mupd repo.slugMem r.shortURL r.originalURL
    urlMem := mupd repo.urlMem r.originalURL r.shortURL
    userURL := nupd repo.userURL userUUID r.originalURL r.shortURL
    uuidMem := mupd repo.uuidMem r.uuid r.shortURL
    userSlug := nupd repo.userSlug userUUID r.shortURL r.originalURL
    isDeleted := mupd repo.isDeleted r.shortURL false }

/-- Go `SaveBatch` creates the owner's nested maps before the insertion
loop even when the batch is empty. -/
def ensureOwner (repo : MemStorage) (userUUID : String) : MemStorage :=
  { repo with
    userURL :=
      if (repo.userURL.lookup userUUID).isNone then
        mupd repo.userURL userUUID []
      else repo.userURL
    userSlug :=
      if (repo.userSlug.lookup userUUID).isNone then
        mupd repo.userSlug userUUID []
      else repo.userSlug }

/-- `MemStorage.SaveBatch`: validate the whole batch first (no mutation),
then insert every record. -/
def MemStorage.saveBatch (repo : MemStorage) (userUUID : String)
    (batch : List URLRec) : MemStorage × Option Err :=
  match validateBatch repo batch with
  | some e => (repo, some e)
  | none => (batch.foldl (insertBatchRec userUUID) (ensureOwner repo userUUID), none)

/-- `MemStorage.GetUserShortURLs`: the owner's slug map restricted to
non-deleted slugs; unknown owner fails with `ErrNotFound`. -/
def MemStorage.getUserShortURLs (repo : MemStorage) (userUUID : String) :
    Except Err (List (String × String)) :=
  match repo.userSlug.lookup userUUID with
  | none => .error .notFound
  | some m => .ok (m.filter (fun p => !(repo.deletedD p.1)))

/-- Inner loop of `MemStorage.DeleteUserShortURLs` over one owner's slug
list: a slug is marked deleted only when the owner's slug map holds it
with a non-empty URL (Go reads `m[slug] != ""` then re-checks presence). -/
def markDeleted (m : List (String × String)) (isDel : List (String × Bool)) :
    List String → List (String × Bool)
  | [] => isDel
  | slug :: rest =>
      if lookupD m slug "" ≠ "" then
        if (m.lookup slug).isSome then
          markDeleted m (mupd isDel slug true) rest
        else markDeleted m isDel rest
      else markDeleted m isDel rest

/-- `MemStorage.DeleteUserShortURLs` over the owner→slugs request map
(modelled as an association list in iteration order): an owner absent from
`UserUUIDSlugMemStore` aborts with `ErrInvalidUserUUID`, keeping the
mutations already made for earlier owners; foreign or unknown slugs are
silently skipped. -/
def MemStorage.deleteUserShortURLs (repo : MemStorage) :
    List (String × List String) → MemStorage × Option Err
  | [] => (repo, none)
  | (owner, slugs) :: rest =>
      match repo.userSlug.lookup owner with
      | none => (repo, some .invalidUserUUID)
      | some m =>
          MemStorage.deleteUserShortURLs
            { repo with isDeleted := markDeleted m repo.isDeleted slugs } rest

/-! ## Service layer (`service.go`, final iteration) -/

/-- Service-level errors: `ErrEmptyID`, and the `fmt.Errorf("...: %w", err)`
wrapper around a repository error (`none` models wrapping a `nil` error,
reachable in `GetURL` when the backend returns an empty URL without an
error). -/
inductive SvcErr where
  | emptyID
  | wrapped (e : Option Err)
  deriving DecidableEq, Repr

/-- `Service.GetURL`: empty slug fails with `ErrEmptyID`; otherwise the
backend result is returned, any failure (or empty URL) being wrapped. The
`userUUID` parameter of the Go method is accepted but never read. -/
def svcGetURL (repo : MemStorage) (userUUID : String) (shortURL : String) :
    Except SvcErr String :=
  if shortURL = "" then .error .emptyID
  else
    match repo.getURL shortURL with
    | .ok u => if u = "" then .error (.wrapped none) else .ok u
    | .error e => .error (.wrapped (some e))

/-- `Service.GetUserShortURLs`: passthrough to the backend, wrapping any
error. -/
def svcGetUserShortURLs (repo : MemStorage) (userUUID : String) :
    Except SvcErr (List (String × String)) :=
  match repo.getUserShortURLs userUUID with
  | .ok m => .ok m
  | .error e => .error (.wrapped (some e))

/-- `strings.TrimRight(urlLink, "/")`: drop every trailing slash. -/
def trimRightSlashes (s : String) : String :=
  ⟨(s.data.reverse.dropWhile (fun c => c = '/')).reverse⟩

/-- Split a URL at the first `"://"`, returning the scheme characters and
the remainder. -/
def breakScheme : List Char → Option (List Char × List Char)
  | [] => none
  | ':' :: '/' :: '/' :: rest => some ([], rest)
  | c :: rest =>
      match breakScheme rest with
      | some (a, b) => some (c :: a, b)
      | none => none

/-- Modelled from Go `net/url.Parse` restricted to the two fields the
service reads: `Scheme` is the part before `"://"` and `Host` the part
between `"://"` and the next `/`.  A URL without `"://"` parses with an
empty (or non-http) scheme, so it fails the scheme check exactly as in the
source; `url.Parse` itself practically never errors on the inputs reaching
it, so `ErrInvalidURLFormat` is unreachable here as in the source. -/
def validateURLLink (u : String) : Option Err :=
  match breakScheme u.data with
  | none => some .wrongHTTPScheme
  | some (sch, rest) =>
      if ¬(sch = "http".data ∨ sch = "https".data) then some .wrongHTTPScheme
      else if rest.takeWhile (fun c => c ≠ '/') = [] then some .mustIncludeHost
      else none

/-- `generateShortURL`: fails with `ErrShortURLLength` when the requested
length is not positive; otherwise draws a random token, modelled by the
oracle `gen` indexed by the attempt number (the 52-symbol alphanumeric
content of the token is abstracted into the oracle). -/
def generateShortURL (gen : Nat → String) (length : Nat) (attempt : Nat) :
    Except Err String :=
  if length = 0 then .error .shortURLLength else .ok (gen attempt)

/-- The retry loop of `Service.SaveURL` over the remaining attempt numbers
(`[1, 2, 3]` initially; `rest.isEmpty` is the `attempt == 3` test):
a successful insert returns that attempt's slug; `ErrURLExist` returns the
existing slug from `GetShortURL` together with `ErrURLExist` (or
`ErrNotFound` if the reverse lookup fails); on the last attempt
`ErrShortURLExist` is surfaced (wrapped); any other error on the last
attempt falls out of the loop and is returned with an empty slug. -/
def saveURLLoop (gen fresh : Nat → String) (userUUID u : String)
    (repo : MemStorage) : List Nat → MemStorage × String × Option Err
  | [] => (repo, "", none)
  | attempt :: rest =>
      match generateShortURL gen 8 attempt with
      | .error e =>
          if rest.isEmpty then (repo, "", some e)
          else saveURLLoop gen fresh userUUID u repo rest
      | .ok slug =>
          match repo.save userUUID slug u (fresh attempt) with
          | (repo', none) => (repo', slug, none)
          | (_, some e) =>
              if e = Err.urlExist then
                match repo.getShortURL u with
                | .ok s => (repo, s, some Err.urlExist)
                | .error _ => (repo, "", some Err.notFound)
              else if rest.isEmpty then
                if e = Err.shortURLExist then (repo, "", some Err.shortURLExist)
                else (repo, "", some e)
              else saveURLLoop gen fresh userUUID u repo rest

/-- `Service.SaveURL`: trim trailing slashes, validate (empty / scheme /
host), then run the three-attempt insert loop.  `gen` and `fresh` are the
oracles for the random slug of each attempt and the `uuid.New()` of each
attempt's insert. -/
def saveURL (gen fresh : Nat → String) (repo : MemStorage)
    (userUUID urlLink : String) : MemStorage × String × Option Err :=
  if trimRightSlashes urlLink = "" then (repo, "", some .emptyURL)
  else
    match validateURLLink (trimRightSlashes urlLink) with
    | some e => (repo, "", some e)
    | none => saveURLLoop gen fresh userUUID (trimRightSlashes urlLink) repo [1, 2, 3]

/-! ## Deletion aggregator (`SendShortURLForDelete` / `deleteShortURLs`)

The aggregator goroutine is modelled as a state machine.  `queued` holds
the one-entry maps sent over the per-submission channels appended to
`toDeleteChan` and not yet collected; `collected` is the accumulator map
`shortURLsForDelete`.  On a timer tick the loop first re-collects every
pending channel and then, if the accumulator is non-empty, flushes it via
`DeleteUserShortURLs` (logging, not propagating, its error) and resets it;
the freshly collected submissions are merged into the reset accumulator
through the select loop before the next tick (the model assumes every
collected item arrives before the following tick, the quiescent
determinisation of the channel fan-in). -/

structure SvcState where
  repo : MemStorage
  queued : List (String × List String)
  collected : List (String × List String)
  deriving DecidableEq, Repr

/-- `Service.SendShortURLForDelete`: enqueue one `{owner: slugs}` unit;
non-blocking, no backend call. -/
def sendShortURLForDelete (st : SvcState) (userUUID : String)
    (shortURLs : List String) : SvcState :=
  { st with queued := st.queued ++ [(userUUID, shortURLs)] }

/-- `shortURLsForDelete[k] = append(shortURLsForDelete[k], v...)`. -/
def mergeToDelete (acc : List (String × List String))
    (entry : String × List String) : List (String × List String) :=
  mupd acc entry.1 (lookupD acc entry.1 [] ++ entry.2)

/-- One timer tick of `deleteShortURLs`: flush the accumulator (if
non-empty) to the repository, keeping the partially-mutated state even on
error, and replace it by the merge of the submissions collected at this
tick. -/
def tick (st : SvcState) : SvcState :=
  { repo :=
      if st.collected.isEmpty then st.repo
      else (st.repo.deleteUserShortURLs st.collected).1
    queued := []
    collected := st.queued.foldl mergeToDelete [] }

/-! ## File-storage variant (`filestorage.go`) -/

/-- The file-storage state: the embedded `memory.MemStorage` index plus
the append-only log, one `model.URL` JSON line per entry. -/
structure FileState where
  m : MemStorage
  file : List URLRec
  deriving DecidableEq, Repr

/-- The record appended for one write (`fs.urlMapping` assignment). -/
def mkFileRec (uuid userUUID shortURL url : String) : URLRec :=
  ⟨uuid, userUUID, shortURL, url, false⟩

/-- Append loop of `FileStorage.SaveBatch`: each record's file write may
fail (modelled by the `wOk` oracle over the item index); a failure aborts
with the lines written so far kept in the log. -/
def appendBatch (wOk : Nat → Bool) (userUUID : String) :
    Nat → List URLRec → List URLRec → List URLRec × Option Err
  | _, file, [] => (file, none)
  | i, file, r :: rest =>
      if wOk i then
        appendBatch wOk userUUID (i + 1)
          (file ++ [mkFileRec r.uuid userUUID r.shortURL r.originalURL]) rest
      else (file, some .ioFailure)

/-- `FileStorage.SaveBatch`: commit the whole batch to the in-memory index
first (all-or-nothing there), then append one line per record to the log;
a failed write returns an error while the in-memory commit and the lines
already appended remain. -/
def fileSaveBatch (wOk : Nat → Bool) (st : FileState) (userUUID : String)
    (batch : List URLRec) : FileState × Option Err :=
  match st.m.saveBatch userUUID batch with
  | (_, some e) => (st, some e)
  | (m', none) =>
      match appendBatch wOk userUUID 0 st.file batch with
      | (file', err) => (⟨m', file'⟩, err)

/-! ## Basic lemmas about the map model -/

theorem lookup_cons_key {α : Type} (a : String) (b : α) (es : List (String × α)) :
    List.lookup a ((a, b) :: es) = some b := by
  simp [List.lookup]

theorem lookup_cons_ne {α : Type} (a k : String) (b : α) (es : List (String × α))
    (h : a ≠ k) :
    List.lookup a ((k, b) :: es) = List.lookup a es := by
  have hb : (a == k) = false := beq_eq_false_iff_ne.mpr h
  simp [List.lookup, hb]

theorem lookup_filterNe {α : Type} (m : List (String × α)) (k k' : String)
    (h : k' ≠ k) :
    (m.filter (fun p => p.1 ≠ k)).lookup k' = m.lookup k' := by
  induction m with
  | nil => rfl
  | cons p rest ih =>
      rw [List.filter_cons]
      by_cases hp : p.1 = k
      · rw [if_neg (by simp [hp])]
        rw [ih]
        obtain ⟨p1, p2⟩ := p
        simp only at hp
        rw [lookup_cons_ne k' p1 p2 rest (hp ▸ h)]
      · rw [if_pos (by simp [hp])]
        obtain ⟨p1, p2⟩ := p
        by_cases hk : k' = p1
        · subst hk
          rw [lookup_cons_key, lookup_cons_key]
        · rw [lookup_cons_ne k' p1 p2 _ hk, lookup_cons_ne k' p1 p2 _ hk, ih]

theorem lookup_mupd {α : Type} (m : List (String × α)) (k k' : String) (v : α) :
    (mupd m k v).lookup k' = if k' = k then some v else m.lookup k' := by
  unfold mupd
  by_cases h : k' = k
  · subst h
    rw [lookup_cons_key, if_pos rfl]
  · rw [lookup_cons_ne k' k v _ h, if_neg h, lookup_filterNe m k k' h]

theorem lookupD_mupd {α : Type} (m : List (String × α)) (k k' : String)
    (v d : α) :
    lookupD (mupd m k v) k' d = if k' = k then v else lookupD m k' d := by
  unfold lookupD
  rw [lookup_mupd]
  by_cases h : k' = k <;> simp [h]

theorem lookup_filter_false (m : List (String × String)) (f : String → Bool)
    (s : String) (h : f s = false) :
    (m.filter (fun p => f p.1)).lookup s = none := by
  induction m with
  | nil => rfl
  | cons p rest ih =>
      by_cases hp : f p.1
      · have hs : (s == p.1) = false := by
          rcases eq_or_ne s p.1 with rfl | hne
          · rw [h] at hp; exact absurd hp (by simp)
          · simp [hne]
        simp [List.filter, hp, List.lookup, hs, ih]
      · simp only [Bool.not_eq_true] at hp
        simp [List.filter, hp, ih]

/-- `markDeleted` marks exactly the requested slugs that the owner's map
holds with a non-empty URL; every other flag is untouched. -/
theorem markDeleted_lookupD (m : List (String × String)) (slugs : List String)
    (isDel : List (String × Bool)) (s : String) :
    lookupD (markDeleted m isDel slugs) s false =
      ((decide (s ∈ slugs) && (lookupD m s "" != "")) || lookupD isDel s false) := by
  induction slugs generalizing isDel with
  | nil => simp [markDeleted]
  | cons a rest ih =>
      unfold markDeleted
      by_cases ha : lookupD m a "" ≠ ""
      · have hsome : (m.lookup a).isSome := by
          unfold lookupD at ha
          cases h : m.lookup a with
          | none => rw [h] at ha; simp at ha
          | some v => simp
        rw [if_pos ha, if_pos hsome, ih]
        by_cases hs : s = a
        · subst hs
          simp [lookupD_mupd, List.mem_cons, ha]
        · simp [lookupD_mupd, hs, List.mem_cons]
      · rw [if_neg ha, ih]
        by_cases hs : s = a
        · subst hs
          simp only [ne_eq, not_not] at ha
          simp [ha, List.mem_cons]
        · simp [List.mem_cons, hs]

theorem markDeleted_monotone (m : List (String × String)) (slugs : List String)
    (isDel : List (String × Bool)) (s : String)
    (h : lookupD isDel s false = true) :
    lookupD (markDeleted m isDel slugs) s false = true := by
  rw [markDeleted_lookupD, h, Bool.or_true]

/-- `getURL` only succeeds on a record whose deleted flag is unset. -/
theorem getURL_ok_deleted_false (repo : MemStorage) (s u : String)
    (h : repo.getURL s = .ok u) : repo.deletedD s = false := by
  unfold MemStorage.getURL at h
  cases hl : repo.slugMem.lookup s with
  | none => rw [hl] at h; exact absurd h (by simp)
  | some v =>
      rw [hl] at h
      by_cases hd : repo.deletedD s
      · simp [hd] at h
      · simpa using hd

/-- `getURL` reads only `SlugMemStore` and the slug's deleted flag. -/
theorem getURL_congr (r1 r2 : MemStorage) (s : String)
    (h1 : r1.slugMem = r2.slugMem) (h2 : r1.deletedD s = r2.deletedD s) :
    r1.getURL s = r2.getURL s := by
  unfold MemStorage.getURL
  rw [h1, h2]

/-- A single-owner `DeleteUserShortURLs` call on an unknown owner. -/
theorem deleteUserShortURLs_single_unknown (repo : MemStorage) (owner : String)
    (slugs : List String) (hm : repo.userSlug.lookup owner = none) :
    repo.deleteUserShortURLs [(owner, slugs)] = (repo, some .invalidUserUUID) := by
  unfold MemStorage.deleteUserShortURLs
  rw [hm]

/-- A single-owner `DeleteUserShortURLs` call on a known owner. -/
theorem deleteUserShortURLs_single_known (repo : MemStorage) (owner : String)
    (slugs : List String) (m : List (String × String))
    (hm : repo.userSlug.lookup owner = some m) :
    repo.deleteUserShortURLs [(owner, slugs)] =
      ({ repo with isDeleted := markDeleted m repo.isDeleted slugs }, none) := by
  unfold MemStorage.deleteUserShortURLs
  rw [hm]
  unfold MemStorage.deleteUserShortURLs
  rfl

/-- A shared concrete store: the state after `Save("u1", "S1",
"http://a.example")` on a fresh memory store. -/
def sampleRepo : MemStorage :=
  (MemStorage.empty.save "u1" "S1" "http://a.example" "id1").1

/-! ## C5 — resolve has exactly three distinguishable outcomes -/

/-- C5: for every storage state and slug, the backend `GetURL` resolves a
present non-deleted record to its URL, fails with `ErrNotFound` when the
slug is unknown, and fails with the distinct `ErrShortURLIsDeleted` (never
`ErrNotFound`, never a URL) when the record exists but is soft-deleted. -/
theorem C5_resolve_trichotomy (repo : MemStorage) (slug : String) :
    (repo.slugMem.lookup slug = none → repo.getURL slug = .error .notFound) ∧
    (∀ u, repo.slugMem.lookup slug = some u → repo.deletedD slug = false →
       repo.getURL slug = .ok u) ∧
    (∀ u, repo.slugMem.lookup slug = some u → repo.deletedD slug = true →
       repo.getURL slug = .error .shortURLIsDeleted ∧
       repo.getURL slug ≠ .error .notFound ∧ ∀ v, repo.getURL slug ≠ .ok v) := by
  refine ⟨fun h => ?_, fun u h hd => ?_, fun u h hd => ?_⟩
  · unfold MemStorage.getURL
    rw [h]
  · unfold MemStorage.getURL
    rw [h, hd]
    simp
  · unfold MemStorage.getURL
    rw [h, hd]
    simp

/-- Witness for C5: a concrete soft-deleted record resolves to Gone. -/
theorem C5_resolve_trichotomy_witness :
    (MemStorage.mk [("S", "http://x")] [] [] [] [] [("S", true)]).getURL "S"
      = .error .shortURLIsDeleted :=
  ((C5_resolve_trichotomy (MemStorage.mk [("S", "http://x")] [] [] [] [] [("S", true)])
      "S").2.2 "http://x" (by decide) (by decide)).1

/-! ## C10 — resolution ignores the owner argument -/

/-- C10: `Service.GetURL` accepts an owner ID but never reads it: for
every store, slug and pair of owners the results coincide. -/
theorem C10_getURL_owner_blind (repo : MemStorage) (u1 u2 slug : String) :
    svcGetURL repo u1 slug = svcGetURL repo u2 slug := rfl

/-! ## C7 — URL uniqueness scope in the memory variant -/

/-- Counterexample to C7: `existsURL` consults the global `URLMemStore`,
so after owner A saves a URL, an insert of the same URL by owner B (who
holds no record at all) fails with `ErrURLExist` instead of succeeding. -/
theorem C7_counterexample :
    sampleRepo.userSlug.lookup "ownerB" = none ∧
    sampleRepo.userURL.lookup "ownerB" = none ∧
    sampleRepo.existsURL "http://a.example" = true ∧
    sampleRepo.save "ownerB" "S2" "http://a.example" "id2"
      = (sampleRepo, some Err.urlExist) := by
  refine ⟨by decide, by decide, by decide, by decide⟩

/-- C7 amended: original-URL uniqueness in the memory (and hence file)
variant is global, not per owner — insert fails with `ErrURLExist` exactly
when any owner holds a non-deleted record for the URL. -/
theorem C7_url_uniqueness_global (repo : MemStorage)
    (owner slug url freshId : String) :
    (slug ≠ "" → url ≠ "" → repo.existsURL url = true →
       repo.save owner slug url freshId = (repo, some Err.urlExist)) ∧
    (repo.existsURL url = false →
       (repo.save owner slug url freshId).2 ≠ some Err.urlExist) := by
  constructor
  · intro hs hu hx
    unfold MemStorage.save
    rw [if_neg (by simp [hs, hu]), if_pos hx]
  · intro hx
    unfold MemStorage.save
    by_cases h1 : slug = "" ∨ url = ""
    · simp [h1]
    · rw [if_neg h1, if_neg (by simp [hx])]
      by_cases h2 : repo.existsShortURL slug <;> simp [h2]

/-- Witness for C7's amended theorem at a concrete cross-owner insert. -/
theorem C7_url_uniqueness_global_witness :
    sampleRepo.save "u9" "S9" "http://a.example" "id9"
      = (sampleRepo, some Err.urlExist) :=
  (C7_url_uniqueness_global sampleRepo "u9" "S9" "http://a.example" "id9").1
    (by decide) (by decide) (by decide)

/-! ## C9 — softDelete semantics -/

/-- C9: a single-owner `DeleteUserShortURLs` call fails with
`ErrInvalidUserUUID` (state untouched) when the owner is unknown;
otherwise it succeeds, touches only the deleted flags, marks exactly the
requested slugs the owner holds (with a non-empty URL), and leaves every
other slug — unknown or belonging to a different owner — resolvable
exactly as before. -/
theorem C9_softdelete_spec (repo : MemStorage) (owner : String)
    (slugs : List String) :
    (repo.userSlug.lookup owner = none →
       repo.deleteUserShortURLs [(owner, slugs)]
         = (repo, some Err.invalidUserUUID)) ∧
    (∀ m, repo.userSlug.lookup owner = some m →
       (repo.deleteUserShortURLs [(owner, slugs)]).2 = none ∧
       (repo.deleteUserShortURLs [(owner, slugs)]).1.slugMem = repo.slugMem ∧
       (repo.deleteUserShortURLs [(owner, slugs)]).1.userSlug = repo.userSlug ∧
       (∀ s, (repo.deleteUserShortURLs [(owner, slugs)]).1.deletedD s =
          ((decide (s ∈ slugs) && (lookupD m s "" != "")) || repo.deletedD s)) ∧
       (∀ s, lookupD m s "" = "" →
          (repo.deleteUserShortURLs [(owner, slugs)]).1.getURL s
            = repo.getURL s) ∧
       (∀ s, s ∉ slugs →
          (repo.deleteUserShortURLs [(owner, slugs)]).1.getURL s
            = repo.getURL s)) := by
  constructor
  · exact deleteUserShortURLs_single_unknown repo owner slugs
  · intro m hm
    rw [deleteUserShortURLs_single_known repo owner slugs m hm]
    refine ⟨rfl, rfl, rfl, fun s => ?_, fun s hs => ?_, fun s hs => ?_⟩
    · exact markDeleted_lookupD m slugs repo.isDeleted s
    · refine getURL_congr _ _ s rfl ?_
      show lookupD (markDeleted m repo.isDeleted slugs) s false = _
      rw [markDeleted_lookupD, hs]
      simp [MemStorage.deletedD]
    · refine getURL_congr _ _ s rfl ?_
      show lookupD (markDeleted m repo.isDeleted slugs) s false = _
      rw [markDeleted_lookupD]
      simp [hs, MemStorage.deletedD]

/-- Witness for C9: unknown owner rejected; known owner's delete
succeeds. -/
theorem C9_softdelete_spec_witness :
    sampleRepo.deleteUserShortURLs [("zz", ["S1"])]
      = (sampleRepo, some Err.invalidUserUUID) ∧
    (sampleRepo.deleteUserShortURLs [("u1", ["S1"])]).2 = none :=
  ⟨(C9_softdelete_spec sampleRepo "zz" ["S1"]).1 (by decide),
   ((C9_softdelete_spec sampleRepo "u1" ["S1"]).2 [("S1", "http://a.example")]
      (by decide)).1⟩

instance {ε α : Type} [DecidableEq ε] [DecidableEq α] :
    DecidableEq (Except ε α) := fun x y =>
  match x, y with
  | .ok a, .ok b =>
      if h : a = b then isTrue (by rw [h])
      else isFalse (by intro hh; cases hh; exact h rfl)
  | .ok _, .error _ => isFalse (fun hh => Except.noConfusion hh)
  | .error _, .ok _ => isFalse (fun hh => Except.noConfusion hh)
  | .error e, .error f =>
      if h : e = f then isTrue (by rw [h])
      else isFalse (by intro hh; cases hh; exact h rfl)

/-- A present but soft-deleted slug resolves to Gone. -/
theorem getURL_gone_of (repo : MemStorage) (s : String)
    (h1 : (repo.slugMem.lookup s).isSome = true) (h2 : repo.deletedD s = true) :
    repo.getURL s = .error .shortURLIsDeleted := by
  obtain ⟨v, hv⟩ := Option.isSome_iff_exists.mp h1
  unfold MemStorage.getURL
  rw [hv]
  simp [h2]

/-! ## C1 — visibility of an asynchronous deletion -/

/-- An idle service state over the shared sample store. -/
def sampleState : SvcState := ⟨sampleRepo, [], []⟩

/-- Counterexample to C1: a submission is only *collected* at the first
timer tick after `SendShortURLForDelete`; the flush to the repository
happens at the following tick.  After one full aggregation interval the
slug therefore still resolves to its URL (not Gone) and is still listed
by `GetUserShortURLs`. -/
theorem C1_counterexample :
    svcGetURL (tick (sendShortURLForDelete sampleState "u1" ["S1"])).repo
        "u1" "S1" = .ok "http://a.example" ∧
    svcGetURL (tick (sendShortURLForDelete sampleState "u1" ["S1"])).repo
        "u1" "S1" ≠ .error (.wrapped (some .shortURLIsDeleted)) ∧
    svcGetUserShortURLs (tick (sendShortURLForDelete sampleState "u1" ["S1"])).repo
        "u1" = .ok [("S1", "http://a.example")] := by
  refine ⟨by decide, by decide, by decide⟩

/-- C1 amended: starting from an idle aggregator, after
`SubmitForDelete(owner, [slug])` and **two** timer ticks (the submission
is collected at the first tick and flushed at the second, so visibility is
within two aggregation intervals), `GetURL(owner, slug)` returns the Gone
outcome and the slug is absent from `GetUserURLs(owner)`. -/
theorem C1_two_ticks_gone (st : SvcState) (owner slug url : String)
    (m : List (String × String))
    (hq : st.queued = []) (hc : st.collected = [])
    (hslug : slug ≠ "")
    (hm : st.repo.userSlug.lookup owner = some m)
    (hms : m.lookup slug = some url) (hurl : url ≠ "")
    (hsm : (st.repo.slugMem.lookup slug).isSome = true) :
    svcGetURL (tick (tick (sendShortURLForDelete st owner [slug]))).repo owner slug
      = .error (.wrapped (some .shortURLIsDeleted)) ∧
    ∃ lst,
      svcGetUserShortURLs
          (tick (tick (sendShortURLForDelete st owner [slug]))).repo owner
        = .ok lst ∧ lst.lookup slug = none := by
  obtain ⟨repo, q, c⟩ := st
  simp only at hq hc hm hsm
  subst hq hc
  have hstep :
      (tick (tick (sendShortURLForDelete ⟨repo, [], []⟩ owner [slug]))).repo
        = { repo with isDeleted := markDeleted m repo.isDeleted [slug] } := by
    show (repo.deleteUserShortURLs [(owner, [slug])]).1 = _
    rw [deleteUserShortURLs_single_known repo owner [slug] m hm]
  rw [hstep]
  have hflag :
      ({ repo with isDeleted := markDeleted m repo.isDeleted [slug] }
          : MemStorage).deletedD slug = true := by
    show lookupD (markDeleted m repo.isDeleted [slug]) slug false = true
    rw [markDeleted_lookupD]
    have h1 : lookupD m slug "" = url := by
      unfold lookupD
      rw [hms]
      rfl
    simp [h1, hurl]
  have hsm' :
      (({ repo with isDeleted := markDeleted m repo.isDeleted [slug] }
          : MemStorage).slugMem.lookup slug).isSome = true := hsm
  have hm' :
      ({ repo with isDeleted := markDeleted m repo.isDeleted [slug] }
          : MemStorage).userSlug.lookup owner = some m := hm
  constructor
  · unfold svcGetURL
    rw [if_neg hslug]
    rw [getURL_gone_of _ slug hsm' hflag]
  · refine ⟨m.filter (fun p =>
      !(({ repo with isDeleted := markDeleted m repo.isDeleted [slug] }
          : MemStorage).deletedD p.1)), ?_, ?_⟩
    · unfold svcGetUserShortURLs MemStorage.getUserShortURLs
      rw [hm']
    · exact lookup_filter_false m
        (fun k => !(({ repo with isDeleted := markDeleted m repo.isDeleted [slug] }
          : MemStorage).deletedD k)) slug (by simp [hflag])

/-- Witness for C1's amended theorem on the shared sample store. -/
theorem C1_two_ticks_gone_witness :
    svcGetURL (tick (tick (sendShortURLForDelete sampleState "u1" ["S1"]))).repo
        "u1" "S1" = .error (.wrapped (some .shortURLIsDeleted)) ∧
    ∃ lst,
      svcGetUserShortURLs
          (tick (tick (sendShortURLForDelete sampleState "u1" ["S1"]))).repo "u1"
        = .ok lst ∧ lst.lookup "S1" = none :=
  C1_two_ticks_gone sampleState "u1" "S1" "http://a.example"
    [("S1", "http://a.example")] rfl rfl (by decide) (by decide) (by decide)
    (by decide) (by decide)

/-! ## C6 — one-way transition of the deleted flag -/

/-- A storage operation of the common contract: `Save`, `SaveBatch` or
`DeleteUserShortURLs`. -/
inductive Op where
  | save (owner slug url freshId : String)
  | saveBatch (owner : String) (batch : List URLRec)
  | softDelete (toDel : List (String × List String))
  deriving DecidableEq, Repr

/-- Run one operation against the memory store, keeping the state it
leaves behind (errors are reported to the caller; mutations made before an
early error persist). -/
def applyOp (repo : MemStorage) : Op → MemStorage
  | .save o s u f => (repo.save o s u f).1
  | .saveBatch o b => (repo.saveBatch o b).1
  | .softDelete d => (repo.deleteUserShortURLs d).1

/-- Run a sequence of storage operations. -/
def applyOps (repo : MemStorage) (ops : List Op) : MemStorage :=
  ops.foldl applyOp repo

/-- Whether an operation inserts a record under slug `s`. -/
def insertsSlug (s : String) : Op → Bool
  | .save _ slug _ _ => slug == s
  | .saveBatch _ b => b.any (fun r => r.shortURL == s)
  | .softDelete _ => false

/-- The delete-flag fold of `DeleteUserShortURLs` never clears a flag. -/
theorem deleteUserShortURLs_monotone (d : List (String × List String))
    (repo : MemStorage) (s : String) (h : repo.deletedD s = true) :
    ((repo.deleteUserShortURLs d).1).deletedD s = true := by
  induction d generalizing repo with
  | nil => exact h
  | cons x rest ih =>
      obtain ⟨owner, slugs⟩ := x
      unfold MemStorage.deleteUserShortURLs
      cases hm : repo.userSlug.lookup owner with
      | none => exact h
      | some m =>
          exact ih _ (markDeleted_monotone m slugs repo.isDeleted s h)

/-- The insertion fold of `SaveBatch` touches only the batch's slugs. -/
theorem insertBatch_preserves_deleted (o s : String) (b : List URLRec)
    (repo : MemStorage) (hb : ∀ r ∈ b, r.shortURL ≠ s)
    (h : repo.deletedD s = true) :
    (b.foldl (insertBatchRec o) repo).deletedD s = true := by
  induction b generalizing repo with
  | nil => exact h
  | cons r rest ih =>
      refine ih _ (fun r' hr' => hb r' (List.mem_cons_of_mem r hr')) ?_
      show lookupD (mupd repo.isDeleted r.shortURL false) s false = true
      rw [lookupD_mupd]
      rw [if_neg (fun hss => hb r (List.mem_cons_self r rest) hss.symm)]
      exact h

/-- An operation that does not insert under slug `s` never clears the
deleted flag of `s`. -/
theorem applyOp_preserves_deleted (repo : MemStorage) (op : Op) (s : String)
    (hop : insertsSlug s op = false) (h : repo.deletedD s = true) :
    (applyOp repo op).deletedD s = true := by
  cases op with
  | save o slug u f =>
      have hne : slug ≠ s := by simpa [insertsSlug] using hop
      show ((repo.save o slug u f).1).deletedD s = true
      unfold MemStorage.save
      by_cases h1 : slug = "" ∨ u = ""
      · rw [if_pos h1]; exact h
      · rw [if_neg h1]
        by_cases h2 : repo.existsURL u
        · rw [if_pos h2]; exact h
        · rw [if_neg h2]
          by_cases h3 : repo.existsShortURL slug
          · rw [if_pos h3]; exact h
          · rw [if_neg h3]
            show lookupD (mupd repo.isDeleted slug false) s false = true
            rw [lookupD_mupd, if_neg (fun hss => hne hss.symm)]
            exact h
  | saveBatch o b =>
      have hb : ∀ r ∈ b, r.shortURL ≠ s := by
        simpa [insertsSlug] using hop
      show ((repo.saveBatch o b).1).deletedD s = true
      unfold MemStorage.saveBatch
      cases hv : validateBatch repo b with
      | some e => exact h
      | none => exact insertBatch_preserves_deleted o s b _ hb h
  | softDelete d =>
      exact deleteUserShortURLs_monotone d repo s h

/-- The concrete sequence refuting C6: save a record, soft-delete it, then
re-insert a new record under the same (now deletable) slug. -/
def resurrectOps : List Op :=
  [.save "u1" "S1" "http://a.example" "id1",
   .softDelete [("u1", ["S1"])],
   .save "u2" "S1" "http://b.example" "id2"]

/-- Counterexample to C6: after a soft delete the flag of `"S1"` is
`true`, but a later `Save` reusing the slug — accepted because
`existsShortURL` ignores deleted records — resets the flag to `false` and
the slug resolves again as a non-deleted record. -/
theorem C6_counterexample :
    (applyOps MemStorage.empty (resurrectOps.take 2)).deletedD "S1" = true ∧
    (applyOps MemStorage.empty resurrectOps).deletedD "S1" = false ∧
    (applyOps MemStorage.empty resurrectOps).getURL "S1"
      = .ok "http://b.example" := by
  refine ⟨by decide, by decide, by decide⟩

/-- C6 amended: `softDelete` never clears a deleted flag, and once a slug
is soft-deleted it stays deleted — and never again resolves successfully —
across any sequence of operations none of which inserts a record under
that slug; only a `Save`/`SaveBatch` that reuses the slug (permitted
because uniqueness is only enforced among non-deleted records) can reset
the flag. -/
theorem C6_deleted_monotone (repo : MemStorage) (ops : List Op) (s : String)
    (hops : ∀ op ∈ ops, insertsSlug s op = false)
    (hdel : repo.deletedD s = true) :
    (applyOps repo ops).deletedD s = true ∧
    ∀ u, (applyOps repo ops).getURL s ≠ .ok u := by
  have hmain : (applyOps repo ops).deletedD s = true := by
    induction ops generalizing repo with
    | nil => exact hdel
    | cons op rest ih =>
        exact ih _ (fun o ho => hops o (List.mem_cons_of_mem op ho))
          (applyOp_preserves_deleted repo op s
            (hops op (List.mem_cons_self op rest)) hdel)
  refine ⟨hmain, fun u hu => ?_⟩
  rw [getURL_ok_deleted_false _ s u hu] at hmain
  exact Bool.false_ne_true hmain

/-- Witness for C6's amended theorem: a soft-deleted slug survives an
unrelated save and a repeated delete still deleted. -/
theorem C6_deleted_monotone_witness :
    (applyOps (applyOps MemStorage.empty (resurrectOps.take 2))
        [.save "u3" "T1" "http://c.example" "id3",
         .softDelete [("u3", ["T1"])]]).deletedD "S1" = true :=
  (C6_deleted_monotone (applyOps MemStorage.empty (resurrectOps.take 2))
      [.save "u3" "T1" "http://c.example" "id3",
       .softDelete [("u3", ["T1"])]] "S1" (by decide) (by decide)).1

/-! ## C8 — batch atomicity of the memory and file variants -/

/-- The memory `SaveBatch` validates the whole batch before its first
write, so an error implies an unchanged store. -/
theorem memSaveBatch_error_unchanged (repo : MemStorage) (owner : String)
    (batch : List URLRec) (h : (repo.saveBatch owner batch).2.isSome = true) :
    (repo.saveBatch owner batch).1 = repo := by
  unfold MemStorage.saveBatch at h ⊢
  cases hv : validateBatch repo batch with
  | some e => rfl
  | none => rw [hv] at h; simp at h

/-- Counterexample to C8: in the memory variant no state and batch make
`SaveBatch` err while part of the batch is committed — validation precedes
every write, so an error always leaves the store untouched. -/
theorem C8_counterexample :
    ¬ ∃ (repo : MemStorage) (owner : String) (batch : List URLRec),
        (repo.saveBatch owner batch).2.isSome = true ∧
        (repo.saveBatch owner batch).1 ≠ repo := by
  rintro ⟨repo, owner, batch, h1, h2⟩
  exact h2 (memSaveBatch_error_unchanged repo owner batch h1)

/-- A two-record batch used to exhibit the file variant's partial
application. -/
def c8batch : List URLRec :=
  [⟨"cu1", "u1", "s1", "http://b1.example", false⟩,
   ⟨"cu2", "u1", "s2", "http://b2.example", false⟩]

/-- C8 amended: only the *file* variant exhibits partial application on a
mid-batch error — a failed write of the second line leaves the first line
committed to the durable log (and the full batch in the in-memory index)
while the call errors — whereas the memory variant's `SaveBatch` is
all-or-nothing: on error the store is unchanged. -/
theorem C8_file_partial_memory_atomic :
    ((fileSaveBatch (fun i => i == 0) ⟨MemStorage.empty, []⟩ "u1" c8batch).2
        = some Err.ioFailure ∧
     (fileSaveBatch (fun i => i == 0) ⟨MemStorage.empty, []⟩ "u1" c8batch).1.file
        = [mkFileRec "cu1" "u1" "s1" "http://b1.example"] ∧
     (fileSaveBatch (fun i => i == 0) ⟨MemStorage.empty, []⟩ "u1" c8batch).1.m
        = (MemStorage.empty.saveBatch "u1" c8batch).1) ∧
    (∀ (repo : MemStorage) (owner : String) (batch : List URLRec),
        (repo.saveBatch owner batch).2.isSome = true →
        (repo.saveBatch owner batch).1 = repo) :=
  ⟨⟨by decide, by decide, by decide⟩, memSaveBatch_error_unchanged⟩

/-- Witness for C8's amended theorem: a concrete failing memory batch
leaves the empty store unchanged. -/
theorem C8_file_partial_memory_atomic_witness :
    (MemStorage.empty.saveBatch "u1" [⟨"c", "u", "s", "", false⟩]).1
      = MemStorage.empty :=
  C8_file_partial_memory_atomic.2 MemStorage.empty "u1"
    [⟨"c", "u", "s", "", false⟩] (by decide)

/-! ## Lemmas about `Save` and the `SaveURL` retry loop -/

/-- The length-8 generator call never hits the `ErrShortURLLength` path. -/
theorem generateShortURL_eight (gen : Nat → String) (a : Nat) :
    generateShortURL gen 8 a = .ok (gen a) := rfl

/-- A successful `Save` implies non-empty inputs and leaves both indices
pointing at the new record, with its deleted flag unset. -/
theorem save_success_post (repo : MemStorage) (o slug u fid : String)
    (h : (repo.save o slug u fid).2 = none) :
    slug ≠ "" ∧ u ≠ "" ∧
    (repo.save o slug u fid).1.slugMem.lookup slug = some u ∧
    (repo.save o slug u fid).1.urlMem.lookup u = some slug ∧
    (repo.save o slug u fid).1.deletedD slug = false ∧
    (repo.save o slug u fid).1.existsURL u = true ∧
    (repo.save o slug u fid).1.getShortURL u = .ok slug := by
  unfold MemStorage.save at h ⊢
  by_cases h1 : slug = "" ∨ u = ""
  · rw [if_pos h1] at h; simp at h
  · rw [if_neg h1] at h ⊢
    by_cases h2 : repo.existsURL u
    · rw [if_pos h2] at h; simp at h
    · rw [if_neg h2] at h ⊢
      by_cases h3 : repo.existsShortURL slug
      · rw [if_pos h3] at h; simp at h
      · rw [if_neg h3]
        push_neg at h1
        have hl1 : (mupd repo.slugMem slug u).lookup slug = some u := by
          rw [lookup_mupd, if_pos rfl]
        have hl2 : (mupd repo.urlMem u slug).lookup u = some slug := by
          rw [lookup_mupd, if_pos rfl]
        have hl3 : lookupD (mupd repo.isDeleted slug false) slug false = false := by
          rw [lookupD_mupd, if_pos rfl]
        refine ⟨h1.1, h1.2, hl1, hl2, hl3, ?_, ?_⟩
        · show (match (mupd repo.urlMem u slug).lookup u with
            | some v => !(lookupD (mupd repo.isDeleted slug false) v false)
            | none => false) = true
          rw [hl2]
          simp [hl3]
        · show (match (mupd repo.urlMem u slug).lookup u with
            | some v =>
                if !(lookupD (mupd repo.isDeleted slug false) v false)
                then Except.ok v else Except.error Err.notFound
            | none => Except.error Err.notFound) = .ok slug
          rw [hl2]
          simp [hl3]

/-- `Save` reports `ErrURLExist` only because the URL is globally present
and non-deleted. -/
theorem save_error_urlExist (repo : MemStorage) (o slug u fid : String)
    (h : (repo.save o slug u fid).2 = some Err.urlExist) :
    repo.existsURL u = true := by
  unfold MemStorage.save at h
  by_cases h1 : slug = "" ∨ u = ""
  · rw [if_pos h1] at h; simp at h
  · rw [if_neg h1] at h
    by_cases h2 : repo.existsURL u
    · exact h2
    · rw [if_neg h2] at h
      by_cases h3 : repo.existsShortURL slug
      · rw [if_pos h3] at h; simp at h
      · rw [if_neg h3] at h; simp at h

/-- Unfolding `existsURL = true`: some non-deleted slug holds the URL, and
`GetShortURL` returns it. -/
theorem existsURL_getShortURL (repo : MemStorage) (u : String)
    (h : repo.existsURL u = true) :
    ∃ v, repo.urlMem.lookup u = some v ∧ repo.deletedD v = false ∧
      repo.getShortURL u = .ok v := by
  unfold MemStorage.existsURL at h
  cases hl : repo.urlMem.lookup u with
  | none => rw [hl] at h; simp at h
  | some v =>
      rw [hl] at h
      have hd : repo.deletedD v = false := by simpa using h
      refine ⟨v, rfl, hd, ?_⟩
      unfold MemStorage.getShortURL
      rw [hl]
      simp [hd]

/-- One loop iteration whose insert succeeds returns that slug. -/
theorem saveURLLoop_cons_success (gen fresh : Nat → String) (o u : String)
    (repo r' : MemStorage) (a : Nat) (rest : List Nat)
    (hsv : repo.save o (gen a) u (fresh a) = (r', none)) :
    saveURLLoop gen fresh o u repo (a :: rest) = (r', gen a, none) := by
  unfold saveURLLoop
  rw [generateShortURL_eight]
  simp [hsv]

/-- One loop iteration that hits `ErrURLExist` returns the existing slug
found by `GetShortURL`, together with `ErrURLExist`. -/
theorem saveURLLoop_cons_urlExist (gen fresh : Nat → String) (o u : String)
    (repo x : MemStorage) (a : Nat) (rest : List Nat) (v : String)
    (hsv : repo.save o (gen a) u (fresh a) = (x, some Err.urlExist))
    (hgs : repo.getShortURL u = .ok v) :
    saveURLLoop gen fresh o u repo (a :: rest) = (repo, v, some Err.urlExist) := by
  unfold saveURLLoop
  rw [generateShortURL_eight]
  simp [hsv, hgs]

/-- A non-`ErrURLExist` failure on a non-final attempt retries with the
same store. -/
theorem saveURLLoop_cons_retry (gen fresh : Nat → String) (o u : String)
    (repo x : MemStorage) (a b : Nat) (rest : List Nat) (e : Err)
    (hsv : repo.save o (gen a) u (fresh a) = (x, some e))
    (he : e ≠ Err.urlExist) :
    saveURLLoop gen fresh o u repo (a :: b :: rest)
      = saveURLLoop gen fresh o u repo (b :: rest) := by
  conv_lhs => unfold saveURLLoop
  rw [generateShortURL_eight]
  simp [hsv, he]

/-- `ErrShortURLExist` on the final attempt surfaces the (wrapped)
collision error with an empty slug. -/
theorem saveURLLoop_last_collision (gen fresh : Nat → String) (o u : String)
    (repo x : MemStorage) (a : Nat)
    (hsv : repo.save o (gen a) u (fresh a) = (x, some Err.shortURLExist)) :
    saveURLLoop gen fresh o u repo [a] = (repo, "", some Err.shortURLExist) := by
  unfold saveURLLoop
  rw [generateShortURL_eight]
  simp [hsv]

/-- A slug collision on a store that does not hold the URL. -/
theorem save_collision (repo : MemStorage) (o slug u fid : String)
    (hs : slug ≠ "") (hu : u ≠ "") (hnx : repo.existsURL u = false)
    (hcol : repo.existsShortURL slug = true) :
    repo.save o slug u fid = (repo, some Err.shortURLExist) := by
  unfold MemStorage.save
  rw [if_neg (by simp [hs, hu]), if_neg (by simp [hnx]), if_pos hcol]

/-- A fresh slug on a store that does not hold the URL inserts. -/
theorem save_fresh_ok (repo : MemStorage) (o slug u fid : String)
    (hs : slug ≠ "") (hu : u ≠ "") (hnx : repo.existsURL u = false)
    (hcol : repo.existsShortURL slug = false) :
    (repo.save o slug u fid).2 = none := by
  unfold MemStorage.save
  rw [if_neg (by simp [hs, hu]), if_neg (by simp [hnx]),
    if_neg (by simp [hcol])]

/-- A present, non-deleted record resolves to its URL. -/
theorem getURL_ok_of (repo : MemStorage) (s u : String)
    (h1 : repo.slugMem.lookup s = some u) (h2 : repo.deletedD s = false) :
    repo.getURL s = .ok u := by
  unfold MemStorage.getURL
  rw [h1]
  simp [h2]

/-- The service `GetURL` passes a successful non-empty resolution
through. -/
theorem svcGetURL_ok_of (repo : MemStorage) (o s u : String)
    (hs : s ≠ "") (hu : u ≠ "") (h : repo.getURL s = .ok u) :
    svcGetURL repo o s = .ok u := by
  unfold svcGetURL
  rw [if_neg hs, h]
  simp [hu]

/-- `Save` against a store already holding the URL fails with
`ErrURLExist` before touching anything. -/
theorem save_urlExist_of (repo : MemStorage) (o slug u fid : String)
    (hs : slug ≠ "") (hu : u ≠ "") (hx : repo.existsURL u = true) :
    repo.save o slug u fid = (repo, some Err.urlExist) := by
  unfold MemStorage.save
  rw [if_neg (by simp [hs, hu]), if_pos hx]

/-- A non-`ErrURLExist`, non-collision failure on the final attempt falls
out of the loop with the last error. -/
theorem saveURLLoop_last_other (gen fresh : Nat → String) (o u : String)
    (repo x : MemStorage) (a : Nat) (e : Err)
    (hsv : repo.save o (gen a) u (fresh a) = (x, some e))
    (he : e ≠ Err.urlExist) (hse : e ≠ Err.shortURLExist) :
    saveURLLoop gen fresh o u repo [a] = (repo, "", some e) := by
  unfold saveURLLoop
  rw [generateShortURL_eight]
  simp [hsv, he, hse]

/-- A pair with a `none` second component is the pair of its first
component and `none`. -/
theorem pair_of_snd_none (p : MemStorage × Option Err) (h : p.2 = none) :
    p = (p.1, none) := by
  obtain ⟨a, b⟩ := p
  cases h
  rfl

/-- The mutual consistency of the two global indices: every reverse
binding `url ↦ slug` has a forward binding `slug ↦ url` with a non-empty
slug (every reachable store satisfies this because `Save` writes both maps
together, rejecting empty input). -/
def UrlSlugConsistent (repo : MemStorage) : Prop :=
  ∀ u s, repo.urlMem.lookup u = some s → s ≠ "" ∧ repo.slugMem.lookup s = some u

/-- If the retry loop ends without error, some attempt's insert succeeded
on the original store and its slug is the one returned. -/
theorem saveURLLoop_success (gen fresh : Nat → String) (o u : String)
    (repo : MemStorage) (as : List Nat) (hne : as ≠ [])
    (h : (saveURLLoop gen fresh o u repo as).2.2 = none) :
    ∃ i ∈ as, repo.save o (gen i) u (fresh i)
        = ((saveURLLoop gen fresh o u repo as).1, none) ∧
      (saveURLLoop gen fresh o u repo as).2.1 = gen i := by
  revert hne h
  induction as with
  | nil => intro hne _; exact absurd rfl hne
  | cons a rest ih =>
      intro _ h
      cases hsv : repo.save o (gen a) u (fresh a) with
      | mk r' oe =>
          cases oe with
          | none =>
              rw [saveURLLoop_cons_success gen fresh o u repo r' a rest hsv] at h ⊢
              exact ⟨a, List.mem_cons_self a rest, hsv, rfl⟩
          | some e =>
              by_cases he : e = Err.urlExist
              · subst he
                have hx := save_error_urlExist repo o (gen a) u (fresh a) (by rw [hsv])
                obtain ⟨v, _, _, hgs⟩ := existsURL_getShortURL repo u hx
                rw [saveURLLoop_cons_urlExist gen fresh o u repo r' a rest v hsv hgs] at h
                simp at h
              · cases rest with
                | nil =>
                    by_cases hse : e = Err.shortURLExist
                    · subst hse
                      rw [saveURLLoop_last_collision gen fresh o u repo r' a hsv] at h
                      simp at h
                    · rw [saveURLLoop_last_other gen fresh o u repo r' a e hsv he hse] at h
                      simp at h
                | cons b rest' =>
                    rw [saveURLLoop_cons_retry gen fresh o u repo r' a b rest' e hsv he] at h ⊢
                    obtain ⟨i, hmem, hsave, hslug⟩ := ih (by simp) h
                    exact ⟨i, List.mem_cons_of_mem a hmem, hsave, hslug⟩

/-- Round-trip through the retry loop: whenever it returns a slug — a
fresh insert or the `ErrURLExist` path — resolving that slug yields the
(trimmed) URL that was saved. -/
theorem saveURLLoop_roundtrip (gen fresh : Nat → String) (o u : String)
    (repo : MemStorage) (as : List Nat) (hne : as ≠ [])
    (hWF : UrlSlugConsistent repo) (hu : u ≠ "")
    (hres : (saveURLLoop gen fresh o u repo as).2.2 = none ∨
            (saveURLLoop gen fresh o u repo as).2.2 = some Err.urlExist) :
    svcGetURL (saveURLLoop gen fresh o u repo as).1 o
        (saveURLLoop gen fresh o u repo as).2.1 = .ok u := by
  revert hne hres
  induction as with
  | nil => intro hne _; exact absurd rfl hne
  | cons a rest ih =>
      intro _ hres
      cases hsv : repo.save o (gen a) u (fresh a) with
      | mk r' oe =>
          cases oe with
          | none =>
              rw [saveURLLoop_cons_success gen fresh o u repo r' a rest hsv]
              obtain ⟨hs, hu', hl1, hl2, hd, _, _⟩ :=
                save_success_post repo o (gen a) u (fresh a) (by rw [hsv])
              rw [hsv] at hl1 hd
              exact svcGetURL_ok_of r' o (gen a) u hs hu (getURL_ok_of r' (gen a) u hl1 hd)
          | some e =>
              by_cases he : e = Err.urlExist
              · subst he
                have hx := save_error_urlExist repo o (gen a) u (fresh a) (by rw [hsv])
                obtain ⟨v, hvl, hvd, hgs⟩ := existsURL_getShortURL repo u hx
                rw [saveURLLoop_cons_urlExist gen fresh o u repo r' a rest v hsv hgs]
                obtain ⟨hvne, hsl⟩ := hWF u v hvl
                exact svcGetURL_ok_of repo o v u hvne hu (getURL_ok_of repo v u hsl hvd)
              · cases rest with
                | nil =>
                    by_cases hse : e = Err.shortURLExist
                    · subst hse
                      rw [saveURLLoop_last_collision gen fresh o u repo r' a hsv] at hres
                      simp at hres
                    · rw [saveURLLoop_last_other gen fresh o u repo r' a e hsv he hse] at hres
                      rcases hres with h | h
                      · simp at h
                      · simp at h; exact absurd h he
                | cons b rest' =>
                    rw [saveURLLoop_cons_retry gen fresh o u repo r' a b rest' e hsv he] at hres ⊢
                    exact ih (by simp) hres

/-- The validated `SaveURL` reduces to the retry loop on the trimmed
URL. -/
theorem saveURL_eq_loop (gen fresh : Nat → String) (repo : MemStorage)
    (owner url : String) (hu : trimRightSlashes url ≠ "")
    (hv : validateURLLink (trimRightSlashes url) = none) :
    saveURL gen fresh repo owner url
      = saveURLLoop gen fresh owner (trimRightSlashes url) repo [1, 2, 3] := by
  unfold saveURL
  rw [if_neg hu, hv]

/-- A `SaveURL` with no error implies the input passed validation. -/
theorem saveURL_ok_valid (gen fresh : Nat → String) (repo : MemStorage)
    (owner url : String)
    (h : (saveURL gen fresh repo owner url).2.2 = none) :
    trimRightSlashes url ≠ "" ∧
    validateURLLink (trimRightSlashes url) = none := by
  unfold saveURL at h
  by_cases hu : trimRightSlashes url = ""
  · rw [if_pos hu] at h; simp at h
  · rw [if_neg hu] at h
    cases hv : validateURLLink (trimRightSlashes url) with
    | some e => rw [hv] at h; simp at h
    | none => exact ⟨hu, rfl⟩

/-! ## C2 — save/resolve round-trip -/

/-- Counterexample to C2 as universally stated: a reachable state on which
the round-trip fails.  Owner `u1` saves `"http://one.example"` under slug
`"SSSSSSSS"`; the slug is soft-deleted; the generator re-issues the same
slug for owner `u2`'s `"http://two.example"` (legal: `existsShortURL`
ignores deleted records), which overwrites `SlugMemStore["SSSSSSSS"]` while
the stale reverse binding `URLMemStore["http://one.example"] = "SSSSSSSS"`
survives.  A later `SaveURL(u3, "http://one.example")` — accepted by
validation — then takes the `ErrURLExist` path, returns slug `"SSSSSSSS"`,
and `GetURL` on that slug returns `"http://two.example"`, not the saved
URL. -/
theorem C2_counterexample :
    (saveURL (fun _ => "TTTTTTTT") (fun _ => "i3")
        (saveURL (fun _ => "SSSSSSSS") (fun _ => "i2")
          (((saveURL (fun _ => "SSSSSSSS") (fun _ => "i1")
              MemStorage.empty "u1" "http://one.example").1).deleteUserShortURLs
            [("u1", ["SSSSSSSS"])]).1
          "u2" "http://two.example").1
        "u3" "http://one.example").2
      = ("SSSSSSSS", some Err.urlExist) ∧
    trimRightSlashes "http://one.example" = "http://one.example" ∧
    validateURLLink "http://one.example" = none ∧
    svcGetURL (saveURL (fun _ => "TTTTTTTT") (fun _ => "i3")
        (saveURL (fun _ => "SSSSSSSS") (fun _ => "i2")
          (((saveURL (fun _ => "SSSSSSSS") (fun _ => "i1")
              MemStorage.empty "u1" "http://one.example").1).deleteUserShortURLs
            [("u1", ["SSSSSSSS"])]).1
          "u2" "http://two.example").1
        "u3" "http://one.example").1 "u3" "SSSSSSSS"
      = .ok "http://two.example" := by
  refine ⟨by decide, by decide, by decide, by decide⟩

/-- C2 amended: for every owner and raw URL accepted by `SaveURL`'s
validation, over a store whose reverse index is consistent with the
forward index (`UrlSlugConsistent` — maintained by every save except when
the generator re-issues a soft-deleted slug, as in the counterexample),
whenever `SaveURL` returns a slug (a fresh insert, or the existing slug
with the `ErrURLExist` signal), `GetURL` on that slug returns exactly the
original URL with trailing slashes trimmed. -/
theorem C2_roundtrip (gen fresh : Nat → String) (repo : MemStorage)
    (owner url : String) (hWF : UrlSlugConsistent repo)
    (hu : trimRightSlashes url ≠ "")
    (hv : validateURLLink (trimRightSlashes url) = none)
    (hres : (saveURL gen fresh repo owner url).2.2 = none ∨
            (saveURL gen fresh repo owner url).2.2 = some Err.urlExist) :
    svcGetURL (saveURL gen fresh repo owner url).1 owner
        (saveURL gen fresh repo owner url).2.1
      = .ok (trimRightSlashes url) := by
  rw [saveURL_eq_loop gen fresh repo owner url hu hv] at hres ⊢
  exact saveURLLoop_roundtrip gen fresh owner (trimRightSlashes url) repo
    [1, 2, 3] (by simp) hWF hu hres

/-- Witness for C2 on the empty store at a concrete URL (whose trailing
slash is trimmed before storage). -/
theorem C2_roundtrip_witness :
    svcGetURL (saveURL (fun _ => "abcdefgh") (fun _ => "id1")
        MemStorage.empty "u1" "https://a.example/x/").1 "u1"
        (saveURL (fun _ => "abcdefgh") (fun _ => "id1")
          MemStorage.empty "u1" "https://a.example/x/").2.1
      = .ok (trimRightSlashes "https://a.example/x/") :=
  C2_roundtrip (fun _ => "abcdefgh") (fun _ => "id1") MemStorage.empty
    "u1" "https://a.example/x/" (fun u s h => nomatch h) (by decide)
    (by decide) (.inl (by decide))

/-! ## C3 — saving the same URL twice is idempotent -/

/-- C3: if `SaveURL(owner, url)` succeeded, a second `SaveURL(owner, url)`
(with any randomness whose first draw is non-empty, as the length-8
generator guarantees) returns the same slug together with the
`ErrURLExist` signal, and leaves the storage state exactly as it was —
no duplicate record. -/
theorem C3_second_save_idempotent (gen fresh gen2 fresh2 : Nat → String)
    (repo : MemStorage) (owner url : String)
    (h1 : (saveURL gen fresh repo owner url).2.2 = none)
    (hg : gen2 1 ≠ "") :
    saveURL gen2 fresh2 (saveURL gen fresh repo owner url).1 owner url
      = ((saveURL gen fresh repo owner url).1,
         (saveURL gen fresh repo owner url).2.1, some Err.urlExist) := by
  obtain ⟨hu, hv⟩ := saveURL_ok_valid gen fresh repo owner url h1
  rw [saveURL_eq_loop gen fresh repo owner url hu hv] at h1 ⊢
  obtain ⟨i, hmem, hsave, hslug⟩ :=
    saveURLLoop_success gen fresh owner (trimRightSlashes url) repo
      [1, 2, 3] (by simp) h1
  obtain ⟨hs, hu', _, _, _, hex, hgs⟩ :=
    save_success_post repo owner (gen i) (trimRightSlashes url) (fresh i)
      (by rw [hsave])
  rw [hsave] at hex hgs
  rw [saveURL_eq_loop gen2 fresh2 _ owner url hu hv]
  rw [saveURLLoop_cons_urlExist gen2 fresh2 owner (trimRightSlashes url) _ _
    1 [2, 3] (gen i)
    (save_urlExist_of _ owner (gen2 1) (trimRightSlashes url) (fresh2 1)
      hg hu' hex)
    hgs]
  rw [hslug]

/-- Witness for C3 on the empty store at a concrete URL. -/
theorem C3_second_save_idempotent_witness :
    saveURL (fun _ => "zzzzzzzz") (fun _ => "id2")
        (saveURL (fun _ => "abcdefgh") (fun _ => "id1")
          MemStorage.empty "u1" "https://a.example/x").1 "u1"
        "https://a.example/x"
      = ((saveURL (fun _ => "abcdefgh") (fun _ => "id1")
            MemStorage.empty "u1" "https://a.example/x").1,
         (saveURL (fun _ => "abcdefgh") (fun _ => "id1")
            MemStorage.empty "u1" "https://a.example/x").2.1,
         some Err.urlExist) :=
  C3_second_save_idempotent (fun _ => "abcdefgh") (fun _ => "id1")
    (fun _ => "zzzzzzzz") (fun _ => "id2") MemStorage.empty "u1"
    "https://a.example/x" (by decide) (by decide)

/-! ## C4 — bounded slug-collision retry -/

/-- C4: for a valid URL not yet in scope, `SaveURL` makes at most three
insert attempts: a `SlugExists` collision triggers regeneration; if all
three generated slugs collide the call fails with the (wrapped)
`ErrShortURLExist`; the first attempt whose slug is fresh inserts and its
slug is returned with no error. -/
theorem C4_retry_three (gen fresh : Nat → String) (repo : MemStorage)
    (owner url : String)
    (hu : trimRightSlashes url ≠ "")
    (hv : validateURLLink (trimRightSlashes url) = none)
    (hnx : repo.existsURL (trimRightSlashes url) = false)
    (hg : ∀ i, gen i ≠ "") :
    (repo.existsShortURL (gen 1) = true → repo.existsShortURL (gen 2) = true →
       repo.existsShortURL (gen 3) = true →
       saveURL gen fresh repo owner url = (repo, "", some Err.shortURLExist)) ∧
    (repo.existsShortURL (gen 1) = false →
       saveURL gen fresh repo owner url
         = ((repo.save owner (gen 1) (trimRightSlashes url) (fresh 1)).1,
            gen 1, none)) ∧
    (repo.existsShortURL (gen 1) = true →
       repo.existsShortURL (gen 2) = false →
       saveURL gen fresh repo owner url
         = ((repo.save owner (gen 2) (trimRightSlashes url) (fresh 2)).1,
            gen 2, none)) ∧
    (repo.existsShortURL (gen 1) = true → repo.existsShortURL (gen 2) = true →
       repo.existsShortURL (gen 3) = false →
       saveURL gen fresh repo owner url
         = ((repo.save owner (gen 3) (trimRightSlashes url) (fresh 3)).1,
            gen 3, none)) := by
  rw [saveURL_eq_loop gen fresh repo owner url hu hv]
  have hne : Err.shortURLExist ≠ Err.urlExist := by decide
  refine ⟨fun c1 c2 c3 => ?_, fun f1 => ?_, fun c1 f2 => ?_, fun c1 c2 f3 => ?_⟩
  · rw [saveURLLoop_cons_retry gen fresh owner (trimRightSlashes url) repo repo
        1 2 [3] Err.shortURLExist
        (save_collision repo owner (gen 1) (trimRightSlashes url) (fresh 1)
          (hg 1) hu hnx c1) hne,
      saveURLLoop_cons_retry gen fresh owner (trimRightSlashes url) repo repo
        2 3 [] Err.shortURLExist
        (save_collision repo owner (gen 2) (trimRightSlashes url) (fresh 2)
          (hg 2) hu hnx c2) hne,
      saveURLLoop_last_collision gen fresh owner (trimRightSlashes url) repo repo
        3
        (save_collision repo owner (gen 3) (trimRightSlashes url) (fresh 3)
          (hg 3) hu hnx c3)]
  · exact saveURLLoop_cons_success gen fresh owner (trimRightSlashes url) repo _
      1 [2, 3]
      (pair_of_snd_none _ (save_fresh_ok repo owner (gen 1)
        (trimRightSlashes url) (fresh 1) (hg 1) hu hnx f1))
  · rw [saveURLLoop_cons_retry gen fresh owner (trimRightSlashes url) repo repo
        1 2 [3] Err.shortURLExist
        (save_collision repo owner (gen 1) (trimRightSlashes url) (fresh 1)
          (hg 1) hu hnx c1) hne]
    exact saveURLLoop_cons_success gen fresh owner (trimRightSlashes url) repo _
      2 [3]
      (pair_of_snd_none _ (save_fresh_ok repo owner (gen 2)
        (trimRightSlashes url) (fresh 2) (hg 2) hu hnx f2))
  · rw [saveURLLoop_cons_retry gen fresh owner (trimRightSlashes url) repo repo
        1 2 [3] Err.shortURLExist
        (save_collision repo owner (gen 1) (trimRightSlashes url) (fresh 1)
          (hg 1) hu hnx c1) hne,
      saveURLLoop_cons_retry gen fresh owner (trimRightSlashes url) repo repo
        2 3 [] Err.shortURLExist
        (save_collision repo owner (gen 2) (trimRightSlashes url) (fresh 2)
          (hg 2) hu hnx c2) hne]
    exact saveURLLoop_cons_success gen fresh owner (trimRightSlashes url) repo _
      3 []
      (pair_of_snd_none _ (save_fresh_ok repo owner (gen 3)
        (trimRightSlashes url) (fresh 3) (hg 3) hu hnx f3))

/-- Witness for C4: a fresh first slug on the empty store inserts at the
first attempt. -/
theorem C4_retry_three_witness :
    saveURL (fun _ => "slugslug") (fun _ => "fid") MemStorage.empty "u1"
        "https://w.example"
      = ((MemStorage.empty.save "u1" "slugslug"
            (trimRightSlashes "https://w.example") "fid").1,
         "slugslug", none) :=
  (C4_retry_three (fun _ => "slugslug") (fun _ => "fid") MemStorage.empty
      "u1" "https://w.example" (by decide) (by decide) (by decide)
      (by intro i; exact (by decide : ("slugslug" : String) ≠ ""))).2.1
    (by decide)

end Shortener
